import Mathlib

/-!
# Bubble Blast — verification of the grid/collision/match core

A shallow embedding of the bubble-shooter core of this repository
(`src/scenes/GameScene.ts`, `src/systems/BubbleManager.ts`,
`src/systems/ShootingSystem.ts`, `src/systems/LevelManager.ts`), together
with theorems settling the specification's claims about it.

Modelling conventions:

* JS numbers holding integer cell indices are modelled as `ℤ`; JS `%` is
  truncated remainder, hence `Int.tmod`.
* World coordinates and squared distances are exact rationals (`ℚ`); the
  projectile physics and aiming (which use `Math.sqrt`) are idealised over `ℝ`.
* `src/config/constants.ts` is not part of the source snapshot, so the numeric
  constants it provides (`BUBBLES.radius`, `BUBBLES.diameter`,
  `BUBBLES.minMatchCount`, `GAME.width`, the `LEVELS.difficulty` record) are
  parameters of the embedding.  Literals written directly in the sources
  (the wall margin `8`, the grid margin `18`, the search slack `8`) are kept
  as literals.
* The JS `Map` keyed by the string `"r,c"` is modelled as an association list
  keyed by the cell; the JS `Set` of visited keys is a `Finset`.
* Color tokens (`HexColor` strings) are only ever compared for equality, so
  they are modelled as an opaque decidable type, `ℕ`.
-/

namespace BubbleBlast

/-- A grid cell address `(row, column)`.  Rows grow downward, columns grow
rightward.  JS numbers holding (possibly negative, speculative) cell indices
are modelled as `ℤ`. -/
abbrev Cell := ℤ × ℤ

/-- A bubble color token (`HexColor` in the source); compared only for
equality. -/
abbrev Color := ℕ

/-- Neighbor offsets for even rows: `dirsEven` in `GameScene.neighbors`. -/
def dirsEven : List (ℤ × ℤ) :=
  [(0, -1), (0, 1), (-1, -1), (-1, 0), (1, -1), (1, 0)]

/-- Neighbor offsets for odd rows: `dirsOdd` in `GameScene.neighbors`. -/
def dirsOdd : List (ℤ × ℤ) :=
  [(0, -1), (0, 1), (-1, 0), (-1, 1), (1, 0), (1, 1)]

/-- `GameScene.neighbors(r, c)`: apply the parity-dependent offsets, skipping
any result with `rr < 0 || cc < 0 || cc >= this.cols`.  JS `r % 2 === 1` is
truncated remainder, `Int.tmod`. -/
def neighbors (cols : ℕ) (r c : ℤ) : List Cell :=
  let dirs := if r.tmod 2 == 1 then dirsOdd else dirsEven
  dirs.foldr
    (fun d res =>
      let rr := r + d.1
      let cc := c + d.2
      if rr < 0 ∨ cc < 0 ∨ (cols : ℤ) ≤ cc then res else (rr, cc) :: res)
    []

/-- The neighbor list as the specification's §4.3 sentence describes it:
the parity-dependent offsets filtered **only** by the column range
`[0, cols)`.  Spec-side definition, for comparison against `neighbors`. -/
def neighborsColumnFilteredSpec (cols : ℕ) (r c : ℤ) : List Cell :=
  ((if r.tmod 2 == 1 then dirsOdd else dirsEven).map
      (fun d => (r + d.1, c + d.2))).filter
    (fun p => decide (0 ≤ p.2 ∧ p.2 < (cols : ℤ)))

/-- The occupancy store: the JS `Map<CellKey, BubbleGO>` keyed by `"r,c"`,
modelled as an association list from cell to the placed bubble's color. -/
abbrev Occ := List (Cell × Color)

/-- `occupied.get(key(r, c))`, projected to the bubble's color. -/
def occGet (occ : Occ) (cell : Cell) : Option Color :=
  (occ.find? (fun e => e.1 == cell)).map Prod.snd

/-- `occupied.has(key(r, c))`. -/
def occHas (occ : Occ) (cell : Cell) : Bool :=
  (occGet occ cell).isSome

/-- `occupied.set(key(r, c), bubble)` (JS `Map.set`: replace in place when the
key is present, append otherwise). -/
def occSet (occ : Occ) (cell : Cell) (color : Color) : Occ :=
  if occHas occ cell then
    occ.map (fun e => if e.1 == cell then (cell, color) else e)
  else
    occ ++ [(cell, color)]

/-- `occupied.delete(key(r, c))`. -/
def occDelete (occ : Occ) (cell : Cell) : Occ :=
  occ.filter (fun e => !(e.1 == cell))

/-- The keys currently present in the store. -/
def occKeys (occ : Occ) : Finset Cell :=
  (occ.map Prod.fst).toFinset

/-- The grid geometry of a `GameScene` / `BubbleManager` instance.
`radius` is `BUBBLES.radius`, `hSpacing` is `BUBBLES.diameter` and
`vSpacing` is `Math.round(BUBBLES.radius * Math.sqrt(3))`; since
`src/config/constants.ts` is not in the snapshot these are fields here. -/
structure GridCfg where
  cols : ℕ
  maxRows : ℕ
  gridTopY : ℚ
  radius : ℚ
  hSpacing : ℚ
  vSpacing : ℚ

/-- `GameScene.cellToWorld(r, c)`: `x = margin + (r % 2) * radius +
c * hSpacing + radius`, `y = gridTopY + r * vSpacing + radius`, with the
margin literal `18`. -/
def cellToWorld (g : GridCfg) (r c : ℤ) : ℚ × ℚ :=
  (18 + (r.tmod 2 : ℤ) * g.radius + (c : ℚ) * g.hSpacing + g.radius,
   g.gridTopY + (r : ℚ) * g.vSpacing + g.radius)

/-- The bounded search window of `findNearestEmptyCell`:
`rowsToCheck = this.maxRows + 8`. -/
def rowsToCheck (g : GridCfg) : ℕ := g.maxRows + 8

/-- The cells of the search window in row-major scan order
(`for r in [0, rowsToCheck) { for c in [0, cols) ... }`). -/
def scanCells (g : GridCfg) : List Cell :=
  (List.range (rowsToCheck g)).flatMap
    (fun r => (List.range g.cols).map (fun c => (Int.ofNat r, Int.ofNat c)))

/-- Membership in the bounded search window. -/
def InWindow (g : GridCfg) (cell : Cell) : Prop :=
  0 ≤ cell.1 ∧ cell.1 < (rowsToCheck g : ℤ) ∧ 0 ≤ cell.2 ∧ cell.2 < (g.cols : ℤ)

instance (g : GridCfg) (cell : Cell) : Decidable (InWindow g cell) := by
  unfold InWindow; infer_instance

/-- Row-major scan position of a cell, used to state the tie-break order. -/
def scanIdx (g : GridCfg) (cell : Cell) : ℤ :=
  cell.1 * (g.cols : ℤ) + cell.2

/-- Squared Euclidean distance from `cellToWorld(cell)` to the world point
`(wx, wy)` (`d2 = dx * dx + dy * dy` in the source). -/
def dist2 (g : GridCfg) (wx wy : ℚ) (cell : Cell) : ℚ :=
  let p := cellToWorld g cell.1 cell.2
  (p.1 - wx) * (p.1 - wx) + (p.2 - wy) * (p.2 - wy)

/-- The loop body of `findNearestEmptyCell`: skip occupied cells, otherwise
keep the incumbent unless the candidate is strictly closer
(`if (!best || d2 < best.d2) best = {r, c, d2}`). -/
def bestStep (g : GridCfg) (occ : Occ) (wx wy : ℚ)
    (best : Option (Cell × ℚ)) (cell : Cell) : Option (Cell × ℚ) :=
  if occHas occ cell then best
  else
    let d2 := dist2 g wx wy cell
    match best with
    | none => some (cell, d2)
    | some b => if d2 < b.2 then some (cell, d2) else some b

/-- `GameScene.findNearestEmptyCell(worldX, worldY)` /
`BubbleManager.findNearestEmptyCell`: row-major scan of the bounded window,
keeping the strictly closest free cell. -/
def findNearestEmptyCell (g : GridCfg) (occ : Occ) (wx wy : ℚ) : Option Cell :=
  ((scanCells g).foldl (bestStep g occ wx wy) none).map Prod.fst

/-- The body of the inner `for (const nb of this.neighbors(...))` loop of
`GameScene.findMatchGroup`: skip already-visited keys, mark the key visited,
and enqueue it when it holds a bubble of the target color.  The threaded pair
is `(visited, q)`. -/
def visitStep (occ : Occ) (target : Color)
    (vq : Finset Cell × List Cell) (nb : Cell) : Finset Cell × List Cell :=
  if nb ∈ vq.1 then vq
  else
    match occGet occ nb with
    | some col =>
      if col = target then (insert nb vq.1, vq.2 ++ [nb])
      else (insert nb vq.1, vq.2)
    | none => (insert nb vq.1, vq.2)

/-- The whole inner loop of `GameScene.findMatchGroup` for the dequeued cell
`cur`. -/
def visitNeighbors (cols : ℕ) (occ : Occ) (target : Color) (cur : Cell)
    (vq : Finset Cell × List Cell) : Finset Cell × List Cell :=
  (neighbors cols cur.1 cur.2).foldl (visitStep occ target) vq

/-- Iteration budget for the BFS `while (q.length)` loop: every enqueue
permanently claims a previously unvisited occupied key, so
`2 * |occupied keys not yet visited| + |queue|` bounds the remaining
iterations (shown by `visitNeighbors_measure` / `bfs_correct`). -/
def bfsMeasure (occ : Occ) (visited : Finset Cell) (q : List Cell) : ℕ :=
  2 * ((occKeys occ) \ visited).card + q.length

/-- The `while (q.length)` loop of `GameScene.findMatchGroup`: dequeue `cur`
(`q.shift()`), skip it when it holds no bubble or a wrong-colored one,
otherwise collect it and run the neighbor loop.  The loop is driven by an
explicit iteration budget; `findMatchGroup` passes a budget that is never
exhausted (`bfsMeasure` strictly decreases every iteration). -/
def bfs (cols : ℕ) (occ : Occ) (target : Color) :
    ℕ → List Cell → Finset Cell → List Cell → List Cell
  | 0, _, _, out => out
  | _ + 1, [], _, out => out
  | fuel + 1, cur :: rest, visited, out =>
    match occGet occ cur with
    | none => bfs cols occ target fuel rest visited out
    | some col =>
      if col = target then
        let vq := visitNeighbors cols occ target cur (visited, rest)
        bfs cols occ target fuel vq.2 vq.1 (out ++ [cur])
      else bfs cols occ target fuel rest visited out

/-- `GameScene.findMatchGroup(start)`: BFS from the just-placed bubble's cell,
with the start cell pre-seeded into the queue and the visited set
(`q = [{r: start.cellR, c: start.cellC}]; visited.add(key(...))`).
The source collects bubble objects; here the group is the list of their
cells. -/
def findMatchGroup (cols : ℕ) (occ : Occ) (start : Cell) (target : Color) :
    List Cell :=
  bfs cols occ target (bfsMeasure occ {start} [start] + 1) [start] {start} []

/-- The mutable `GameScene` session state relevant to the claims:
the occupancy store, the level counter, the remaining-shots counter, the
in-flight flag (`this.projectile?.active`) and the loaded next bubble
(`this.nextBubble`). -/
structure SceneState where
  occ : Occ
  level : ℤ
  shotsLeft : ℤ
  projActive : Bool
  hasNext : Bool

/-- `GameScene.snapProjectileToGrid(worldX, worldY, colorHex)`: resolve the
nearest empty cell (returning unchanged when there is none), place the bubble,
run the flood fill, delete the group when it reaches `minMatchCount`, and bump
the level on a cleared board.  `restartForNextLevel`'s random respawn of the
next layout is outside the modelled core (it is driven by `Math.random`);
the state records the occupancy right after match resolution and the level
counter. -/
def snapProjectileToGrid (g : GridCfg) (minMatchCount : ℕ) (st : SceneState)
    (wx wy : ℚ) (color : Color) : SceneState :=
  match findNearestEmptyCell g st.occ wx wy with
  | none => st
  | some rc =>
    let occ1 := occSet st.occ rc color
    let grp := findMatchGroup g.cols occ1 rc color
    let occ2 := if minMatchCount ≤ grp.length then grp.foldl occDelete occ1 else occ1
    if occ2.length = 0 then { st with occ := occ2, level := st.level + 1 }
    else { st with occ := occ2 }

/-- `GameScene.fire(targetX, targetY)`, restricted to the session-state
bookkeeping: bail out when no next bubble is loaded, otherwise create an
active projectile and consume one shot (`this.shotsLeft -= 1`); a fresh next
bubble is prepared immediately.  (The launch velocity is modelled separately
by `fireProjectile`.) -/
def fire (st : SceneState) : SceneState :=
  if st.hasNext then
    { st with shotsLeft := st.shotsLeft - 1, projActive := true, hasNext := true }
  else st

/-- The `pointerdown` handler installed by `GameScene.setupInput`: ignore the
input while a projectile is in flight or when no shots remain
(`if (this.projectile?.active) return; if (this.shotsLeft <= 0) return;`). -/
def pointerDown (st : SceneState) : SceneState :=
  if st.projActive then st
  else if st.shotsLeft ≤ 0 then st
  else fire st

/-- `GameScene.destroyProjectile`: the projectile stops being active.  (The
lose popup shown when shots are exhausted does not change the session
state.) -/
def destroyProjectile (st : SceneState) : SceneState :=
  { st with projActive := false }

/-- The session-state transitions that can occur mid-level (level restart and
scene teardown excluded): a pointer-down input, or a projectile resolving. -/
inductive MidLevelStep : SceneState → SceneState → Prop
  | pointer (st : SceneState) : MidLevelStep st (pointerDown st)
  | resolve (st : SceneState) : MidLevelStep st (destroyProjectile st)

/-- One same-color adjacency step of the match group: `b` is a grid neighbor
of `a` and holds a bubble of the target color. -/
def SameColorStep (cols : ℕ) (occ : Occ) (target : Color) (a b : Cell) : Prop :=
  b ∈ neighbors cols a.1 a.2 ∧ occGet occ b = some target

/-- `Reaches cols occ target start z`: `z` is connected to `start` through a
chain of same-colored occupied neighbors — the connected component
relation the match group is specified against. -/
def Reaches (cols : ℕ) (occ : Occ) (target : Color) (start z : Cell) : Prop :=
  Relation.ReflTransGen (SameColorStep cols occ target) start z

/-- The loop invariant of the `findMatchGroup` BFS: the queue and output are
duplicate-free and disjoint, hold only visited target-colored cells reachable
from the start, every visited target-colored cell is queued or output, and
every target-colored neighbor of an output cell has been visited. -/
structure BfsInv (cols : ℕ) (occ : Occ) (target : Color) (start : Cell)
    (q : List Cell) (visited : Finset Cell) (out : List Cell) : Prop where
  q_nodup : q.Nodup
  out_nodup : out.Nodup
  disj : ∀ x ∈ q, x ∉ out
  start_mem : start ∈ visited
  q_vis : ∀ x ∈ q, x ∈ visited
  q_good : ∀ x ∈ q, occGet occ x = some target ∧ Reaches cols occ target start x
  out_vis : ∀ x ∈ out, x ∈ visited
  out_good : ∀ x ∈ out, occGet occ x = some target ∧ Reaches cols occ target start x
  vis_cover : ∀ x ∈ visited, occGet occ x = some target → x ∈ q ∨ x ∈ out
  out_closed : ∀ x ∈ out, ∀ nb ∈ neighbors cols x.1 x.2,
    occGet occ nb = some target → nb ∈ visited

/-- A free-flying projectile (`this.projectile` and its `go.x/go.y/vx/vy`),
idealised over `ℝ`. -/
structure Proj where
  x : ℝ
  y : ℝ
  vx : ℝ
  vy : ℝ

/-- The per-tick motion and wall-bounce portion of `GameScene.update` /
`ShootingSystem.update`: integrate the position, then clamp-and-reflect at
`left = radius + 8` and `right = width - radius - 8`.  `radius` is
`BUBBLES.radius` and `width` is `GAME.width` (parameters, as
`src/config/constants.ts` is not in the snapshot). -/
noncomputable def moveProjectile (radius width dt : ℝ) (p : Proj) : Proj :=
  let x1 := p.x + p.vx * dt
  let y1 := p.y + p.vy * dt
  let left := radius + 8
  let right := width - radius - 8
  if x1 ≤ left then { x := left, y := y1, vx := -p.vx, vy := p.vy }
  else if right ≤ x1 then { x := right, y := y1, vx := -p.vx, vy := p.vy }
  else { x := x1, y := y1, vx := p.vx, vy := p.vy }

/-- `Phaser.Math.Vector2.normalize`: divide by the Euclidean length when it is
positive, leave the vector unchanged otherwise. -/
noncomputable def vecNormalize (v : ℝ × ℝ) : ℝ × ℝ :=
  let len := Real.sqrt (v.1 * v.1 + v.2 * v.2)
  if 0 < len then (v.1 / len, v.2 / len) else v

/-- The aim-direction computation of `GameScene.fire` /
`ShootingSystem.fireTo`: normalize the shooter-to-target vector, clamp
`dir.y` to at most `-0.15` (`if (dir.y > -0.15) dir.y = -0.15`), and
re-normalize. -/
noncomputable def fireDirection (shooterX shooterY targetX targetY : ℝ) : ℝ × ℝ :=
  let dir := vecNormalize (targetX - shooterX, targetY - shooterY)
  let dir2 := if -0.15 < dir.2 then (dir.1, -0.15) else dir
  vecNormalize dir2

/-- The projectile created by `GameScene.fire`: it starts at the shooter and
moves with velocity `dir * BUBBLES.launchSpeedPxPerSec` (`speed` here). -/
noncomputable def fireProjectile
    (speed shooterX shooterY targetX targetY : ℝ) : Proj :=
  let dir := fireDirection shooterX shooterY targetX targetY
  { x := shooterX, y := shooterY, vx := dir.1 * speed, vy := dir.2 * speed }

/-- The `LEVELS.difficulty` record of `src/config/constants.ts` (the file is
not in the snapshot, so its values are parameters). -/
structure Difficulty where
  baseRows : ℤ
  maxRows : ℤ
  rowsEveryLevels : ℤ
  baseColors : ℤ
  maxColors : ℤ
  colorsEveryLevels : ℤ
  baseShots : ℤ
  minShots : ℤ
  shotsDecreaseEveryLevels : ℤ

/-- The numeric parameters read from a curated level JSON file
(`level_1.json` / `level_2.json`). -/
structure LevelJson where
  rows : ℤ
  cols : ℕ
  numColors : ℤ
  shots : ℤ
  waves : ℤ

/-- The `LevelParams` value produced by `LevelManager.getParams`, restricted
to its numeric fields (the color lists are represented by their length). -/
structure LevelParams where
  level : ℤ
  rows : ℤ
  cols : ℕ
  numColors : ℤ
  shots : ℤ
  waves : ℤ

/-- The module-level `clamp(n, min, max)` helper of `LevelManager.ts`:
`Math.max(min, Math.min(max, n))`. -/
def clampNum (n lo hi : ℤ) : ℤ := max lo (min hi n)

/-- `LevelManager.getParams(level, cols)`: levels 1 and 2 are served verbatim
from the curated JSON files; any other level goes through the procedural
difficulty curves with `L = Math.max(1, Math.floor(level))`.  `Math.floor` of
the nonnegative JS divisions is integer division here. -/
def getParams (d : Difficulty) (l1 l2 : LevelJson) (level : ℤ) (cols : ℕ) :
    LevelParams :=
  if level = 1 then
    { level := 1, rows := l1.rows, cols := l1.cols, numColors := l1.numColors,
      shots := l1.shots, waves := l1.waves }
  else if level = 2 then
    { level := 2, rows := l2.rows, cols := l2.cols, numColors := l2.numColors,
      shots := l2.shots, waves := l2.waves }
  else
    let L := max 1 level
    let rowsInc := (L - 1) / d.rowsEveryLevels
    let rows := clampNum (d.baseRows + rowsInc) d.baseRows d.maxRows
    let colorInc := (L - 1) / d.colorsEveryLevels
    let numColors := clampNum (d.baseColors + colorInc) d.baseColors d.maxColors
    let dec := (L - 1) / d.shotsDecreaseEveryLevels
    let shots := max d.minShots (d.baseShots - dec * 2)
    { level := L, rows := rows, cols := cols, numColors := numColors,
      shots := shots, waves := L + 3 }

/-- Modelled from the spec: the curated level files
`src/data/levels/level_1.json` and `level_2.json` are not in the source
snapshot.  The spec (§4.7) describes `getParams` as "a pure step function of
level number" with the `rows`/`colorCount`/`shots` formulas, so the curated
levels' numeric parameters are modelled as those formulas evaluated at the
corresponding level. -/
def specLevelJson (d : Difficulty) (level : ℤ) (cols : ℕ) : LevelJson :=
  let L := max 1 level
  { rows := clampNum (d.baseRows + (L - 1) / d.rowsEveryLevels) d.baseRows d.maxRows,
    cols := cols,
    numColors := clampNum (d.baseColors + (L - 1) / d.colorsEveryLevels)
      d.baseColors d.maxColors,
    shots := max d.minShots (d.baseShots - ((L - 1) / d.shotsDecreaseEveryLevels) * 2),
    waves := L + 3 }

/-- `getParams` with the missing curated-level data filled in from the spec
(`specLevelJson`). -/
def getParamsModelled (d : Difficulty) (level : ℤ) (cols : ℕ) : LevelParams :=
  getParams d (specLevelJson d 1 cols) (specLevelJson d 2 cols) level cols

/-! ## Theorems -/

/-- `neighbors` is the parity-offset list filtered by *both* the column range
and nonnegativity of the row (the `rr < 0 || cc < 0 || cc >= cols` guard). -/
theorem neighbors_eq_filter (cols : ℕ) (r c : ℤ) :
    neighbors cols r c =
      ((if r.tmod 2 == 1 then dirsOdd else dirsEven).map
          (fun d => (r + d.1, c + d.2))).filter
        (fun p => decide (0 ≤ p.1 ∧ 0 ≤ p.2 ∧ p.2 < (cols : ℤ))) := by
  unfold neighbors
  generalize (if r.tmod 2 == 1 then dirsOdd else dirsEven) = dirs
  induction dirs with
  | nil => rfl
  | cons d ds ih =>
    simp only [List.foldr_cons, List.map_cons, List.filter_cons]
    by_cases h : r + d.1 < 0 ∨ c + d.2 < 0 ∨ (cols : ℤ) ≤ c + d.2
    · rw [if_pos h, ih]
      have hd : (decide (0 ≤ r + d.1 ∧ 0 ≤ c + d.2 ∧ c + d.2 < (cols : ℤ))) = false := by
        simp only [decide_eq_false_iff_not]
        omega
      simp [hd]
    · rw [if_neg h, ih]
      have hd : (decide (0 ≤ r + d.1 ∧ 0 ≤ c + d.2 ∧ c + d.2 < (cols : ℤ))) = true := by
        simp only [decide_eq_true_eq]
        omega
      simp [hd]

/-- C3, counterexample: at `cols = 7`, cell `(0, 1)`, the code's neighbor list
is not the column-only-filtered offset list — the claim's description omits
the negative-row filter. -/
theorem neighbors_columnOnly_cex :
    neighbors 7 0 1 ≠ neighborsColumnFilteredSpec 7 0 1 := by decide

/-- C3 (amended): for every cell `(r, c)`, `neighbors(r, c)` returns exactly
the cells obtained by adding the parity-dependent offsets — minus any cell
whose column is outside `[0, cols)` **and minus any cell whose row is
negative**. -/
theorem neighbors_offsets_filtered (cols : ℕ) (r c : ℤ) :
    neighbors cols r c =
      ((if r.tmod 2 == 1 then dirsOdd else dirsEven).map
          (fun d => (r + d.1, c + d.2))).filter
        (fun p => decide (0 ≤ p.1 ∧ 0 ≤ p.2 ∧ p.2 < (cols : ℤ))) :=
  neighbors_eq_filter cols r c

/-- C5, counterexample: for the cell `(0, 0)` the offset result `(-1, 0)`
(whose column is in range) is *not* in the returned list — `neighbors`
itself rejects negative rows, rather than leaving them to occupancy-store
absence. -/
theorem neighbors_negativeRow_cex :
    (((-1 : ℤ), (0 : ℤ)) : Cell) ∉ neighbors 7 0 0 := by decide

/-- C5 (amended): the `neighbors` function itself rejects negative rows: for
every cell, every offset result with row `-1` (or any negative row) is
excluded from the returned list, independently of the occupancy store —
every returned cell has a nonnegative row and an in-range column. -/
theorem neighbors_rejects_negative_rows (cols : ℕ) (r c : ℤ) (p : Cell)
    (hp : p ∈ neighbors cols r c) :
    0 ≤ p.1 ∧ 0 ≤ p.2 ∧ p.2 < (cols : ℤ) := by
  rw [neighbors_eq_filter, List.mem_filter] at hp
  simpa using hp.2

theorem neighbors_rejects_negative_rows_witness :
    (((0 : ℤ), (0 : ℤ)) : Cell) ∈ neighbors 7 0 1 ∧
      (0 : ℤ) ≤ (((0 : ℤ), (0 : ℤ)) : Cell).1 ∧
      (0 : ℤ) ≤ (((0 : ℤ), (0 : ℤ)) : Cell).2 ∧
      (((0 : ℤ), (0 : ℤ)) : Cell).2 < ((7 : ℕ) : ℤ) :=
  ⟨by decide, neighbors_rejects_negative_rows 7 0 1 ((0 : ℤ), (0 : ℤ)) (by decide)⟩

set_option maxHeartbeats 1000000 in
/-- C6: adjacency symmetry — for cells `A = (ar, ac)` and `B = (br, bc)`
(nonnegative rows, per the data model) whose columns both lie in
`[0, cols)`, if `B ∈ neighbors(A)` then `A ∈ neighbors(B)`. -/
theorem neighbors_symm (cols : ℕ) (ar ac br bc : ℤ)
    (har : 0 ≤ ar) (hac : 0 ≤ ac) (hac' : ac < (cols : ℤ))
    (hbc : 0 ≤ bc) (hbc' : bc < (cols : ℤ))
    (hmem : ((br, bc) : Cell) ∈ neighbors cols ar ac) :
    ((ar, ac) : Cell) ∈ neighbors cols br bc := by
  rw [neighbors_eq_filter, List.mem_filter] at hmem
  obtain ⟨hmap, hbnd⟩ := hmem
  have hbnd2 : (0 : ℤ) ≤ br ∧ 0 ≤ bc ∧ bc < (cols : ℤ) := by simpa using hbnd
  rw [neighbors_eq_filter, List.mem_filter]
  refine ⟨?_, by simp only [decide_eq_true_eq]; exact ⟨har, hac, hac'⟩⟩
  rw [Int.tmod_eq_emod har (by norm_num)] at hmap
  rw [Int.tmod_eq_emod hbnd2.1 (by norm_num)]
  rcases Int.emod_two_eq ar with h2 | h2 <;> rw [h2] at hmap <;>
    rcases Int.emod_two_eq br with hb | hb <;> rw [hb] <;>
    simp only [dirsEven, dirsOdd, List.map_cons, List.map_nil, List.mem_cons,
      List.not_mem_nil, or_false, Prod.mk.injEq, show ((0 : ℤ) == 1) = false by decide,
      show ((1 : ℤ) == 1) = true by decide, if_true, if_false, Bool.false_eq_true,
      ite_true, ite_false] at hmap ⊢ <;>
    omega

theorem neighbors_symm_witness :
    (0 : ℤ) ≤ 0 ∧ (0 : ℤ) ≤ 1 ∧ (1 : ℤ) < ((7 : ℕ) : ℤ) ∧
      (0 : ℤ) ≤ 0 ∧ (0 : ℤ) < ((7 : ℕ) : ℤ) ∧
      (((1 : ℤ), (0 : ℤ)) : Cell) ∈ neighbors 7 0 1 ∧
      (((0 : ℤ), (1 : ℤ)) : Cell) ∈ neighbors 7 1 0 :=
  ⟨by decide, by decide, by decide, by decide, by decide, by decide,
    neighbors_symm 7 0 1 1 0 (by decide) (by decide) (by decide) (by decide)
      (by decide) (by decide)⟩

/-- C7: within a level, the remaining shot count is non-increasing, decreases
by exactly 1 on each fired projectile, is never incremented, and never
becomes negative; a fire input is a no-op while a projectile is in flight or
when no shots remain. -/
theorem shotsLeft_spec (st st' : SceneState) :
    (MidLevelStep st st' →
      st'.shotsLeft ≤ st.shotsLeft ∧ (0 ≤ st.shotsLeft → 0 ≤ st'.shotsLeft)) ∧
    (st.projActive = false → 0 < st.shotsLeft → st.hasNext = true →
      (pointerDown st).shotsLeft = st.shotsLeft - 1 ∧
      (pointerDown st).projActive = true) ∧
    ((st.projActive = true ∨ st.shotsLeft ≤ 0) → pointerDown st = st) ∧
    (Relation.ReflTransGen MidLevelStep st st' →
      st'.shotsLeft ≤ st.shotsLeft ∧ (0 ≤ st.shotsLeft → 0 ≤ st'.shotsLeft)) := by
  have single : ∀ a b : SceneState, MidLevelStep a b →
      b.shotsLeft ≤ a.shotsLeft ∧ (0 ≤ a.shotsLeft → 0 ≤ b.shotsLeft) := by
    intro a b h
    cases h with
    | pointer =>
      unfold pointerDown fire
      by_cases h1 : a.projActive
      · simp [h1]
      · by_cases h2 : a.shotsLeft ≤ 0
        · simp [h1, h2]
        · by_cases h3 : a.hasNext
          · simp only [h1, h2, h3, Bool.false_eq_true, if_false, ite_true, ite_false]
            constructor
            · omega
            · intro _; omega
          · simp [h1, h2, h3]
    | resolve => unfold destroyProjectile; simp
  refine ⟨single st st', ?_, ?_, ?_⟩
  · intro h1 h2 h3
    unfold pointerDown
    rw [h1]
    simp only [Bool.false_eq_true, if_false, ite_false]
    rw [if_neg (by omega)]
    unfold fire
    rw [h3]
    simp
  · intro h
    unfold pointerDown
    rcases h with h | h
    · rw [h]; simp
    · by_cases h1 : st.projActive
      · simp [h1]
      · simp [h1, h]
  · intro h
    induction h with
    | refl => exact ⟨le_refl _, fun h => h⟩
    | tail _ hstep ih =>
      have hs := single _ _ hstep
      exact ⟨le_trans hs.1 ih.1, fun h0 => hs.2 (ih.2 h0)⟩

theorem shotsLeft_spec_witness :
    ((⟨[], 1, 3, false, true⟩ : SceneState).projActive = false) ∧
      (0 : ℤ) < (⟨[], 1, 3, false, true⟩ : SceneState).shotsLeft ∧
      ((⟨[], 1, 3, false, true⟩ : SceneState).hasNext = true) ∧
      (pointerDown ⟨[], 1, 3, false, true⟩).shotsLeft = 3 - 1 ∧
      (pointerDown ⟨[], 1, 3, false, true⟩).projActive = true :=
  ⟨rfl, by decide, rfl,
    ((shotsLeft_spec ⟨[], 1, 3, false, true⟩ ⟨[], 1, 3, false, true⟩).2.1
      rfl (by decide) rfl).1,
    ((shotsLeft_spec ⟨[], 1, 3, false, true⟩ ⟨[], 1, 3, false, true⟩).2.1
      rfl (by decide) rfl).2⟩

/-- C10: when `findNearestEmptyCell` finds no free cell at a snap event, the
snap handler returns immediately and the whole session state is unchanged:
nothing is placed, no match search runs, no win/level transition happens. -/
theorem snap_boardFull_noop (g : GridCfg) (mm : ℕ) (st : SceneState)
    (wx wy : ℚ) (color : Color)
    (h : findNearestEmptyCell g st.occ wx wy = none) :
    snapProjectileToGrid g mm st wx wy color = st := by
  unfold snapProjectileToGrid
  rw [h]

theorem snap_boardFull_noop_witness :
    findNearestEmptyCell ⟨1, 0, 0, 1, 2, 2⟩
        [(((0 : ℤ), (0 : ℤ)), 1), (((1 : ℤ), (0 : ℤ)), 1), (((2 : ℤ), (0 : ℤ)), 1),
          (((3 : ℤ), (0 : ℤ)), 1), (((4 : ℤ), (0 : ℤ)), 1), (((5 : ℤ), (0 : ℤ)), 1),
          (((6 : ℤ), (0 : ℤ)), 1), (((7 : ℤ), (0 : ℤ)), 1)] 0 0 = none ∧
      snapProjectileToGrid ⟨1, 0, 0, 1, 2, 2⟩ 3
        ⟨[(((0 : ℤ), (0 : ℤ)), 1), (((1 : ℤ), (0 : ℤ)), 1), (((2 : ℤ), (0 : ℤ)), 1),
          (((3 : ℤ), (0 : ℤ)), 1), (((4 : ℤ), (0 : ℤ)), 1), (((5 : ℤ), (0 : ℤ)), 1),
          (((6 : ℤ), (0 : ℤ)), 1), (((7 : ℤ), (0 : ℤ)), 1)], 1, 3, false, true⟩
        0 0 5
        = ⟨[(((0 : ℤ), (0 : ℤ)), 1), (((1 : ℤ), (0 : ℤ)), 1), (((2 : ℤ), (0 : ℤ)), 1),
          (((3 : ℤ), (0 : ℤ)), 1), (((4 : ℤ), (0 : ℤ)), 1), (((5 : ℤ), (0 : ℤ)), 1),
          (((6 : ℤ), (0 : ℤ)), 1), (((7 : ℤ), (0 : ℤ)), 1)], 1, 3, false, true⟩ :=
  ⟨by decide, snap_boardFull_noop ⟨1, 0, 0, 1, 2, 2⟩ 3 _ 0 0 5 (by decide)⟩

/-- C4: the difficulty curves of `getParams` — with the missing curated-level
JSON data modelled from the spec's step-function formulas — follow
`rows = clamp(baseRows + (level-1)/rowsEveryLevels, baseRows, maxRows)` and
`shots = max(minShots, baseShots - 2*((level-1)/shotsDecreaseEveryLevels))`,
and levels `1` and `rowsEveryLevels + 1` differ in `rows` by exactly 1. -/
theorem getParams_step (d : Difficulty) (level : ℤ) (cols : ℕ) (hl : 1 ≤ level) :
    (getParamsModelled d level cols).rows
        = clampNum (d.baseRows + (level - 1) / d.rowsEveryLevels)
            d.baseRows d.maxRows ∧
    (getParamsModelled d level cols).shots
        = max d.minShots
            (d.baseShots - ((level - 1) / d.shotsDecreaseEveryLevels) * 2) ∧
    (0 < d.rowsEveryLevels → d.baseRows < d.maxRows →
      (getParamsModelled d (d.rowsEveryLevels + 1) 10).rows
        = (getParamsModelled d 1 10).rows + 1) := by
  have main : ∀ lv : ℤ, 1 ≤ lv → ∀ cs : ℕ,
      (getParamsModelled d lv cs).rows
          = clampNum (d.baseRows + (lv - 1) / d.rowsEveryLevels)
              d.baseRows d.maxRows ∧
      (getParamsModelled d lv cs).shots
          = max d.minShots
              (d.baseShots - ((lv - 1) / d.shotsDecreaseEveryLevels) * 2) := by
    intro lv hlv cs
    unfold getParamsModelled getParams specLevelJson
    by_cases h1 : lv = 1
    · subst h1; norm_num
    · by_cases h2 : lv = 2
      · subst h2; norm_num
      · rw [if_neg h1, if_neg h2]
        have hmax : max 1 lv = lv := max_eq_right hlv
        simp [hmax]
  refine ⟨(main level hl cols).1, (main level hl cols).2, ?_⟩
  intro hre hbm
  have h1 := (main 1 (by omega) 10).1
  have h2 := (main (d.rowsEveryLevels + 1) (by omega) 10).1
  rw [h1, h2]
  have hz : (1 - 1 : ℤ) / d.rowsEveryLevels = 0 := by norm_num
  have hs : (d.rowsEveryLevels + 1 - 1 : ℤ) / d.rowsEveryLevels = 1 := by
    have : (d.rowsEveryLevels + 1 - 1 : ℤ) = d.rowsEveryLevels := by ring
    rw [this]
    exact Int.ediv_self (by omega)
  rw [hz, hs]
  unfold clampNum
  omega

theorem getParams_step_witness :
    (1 : ℤ) ≤ 7 ∧
      (getParamsModelled ⟨5, 12, 2, 3, 6, 3, 40, 10, 5⟩ 7 10).rows
        = clampNum (5 + (7 - 1) / 2) 5 12 ∧
      (getParamsModelled ⟨5, 12, 2, 3, 6, 3, 40, 10, 5⟩ (2 + 1) 10).rows
        = (getParamsModelled ⟨5, 12, 2, 3, 6, 3, 40, 10, 5⟩ 1 10).rows + 1 :=
  ⟨by decide, (getParams_step ⟨5, 12, 2, 3, 6, 3, 40, 10, 5⟩ 7 10 (by decide)).1,
    (getParams_step ⟨5, 12, 2, 3, 6, 3, 40, 10, 5⟩ 7 10 (by decide)).2.2
      (by decide) (by decide)⟩

/-- The per-tick update never changes the vertical velocity (only `vx` is
ever reflected). -/
theorem moveProjectile_vy (radius width dt : ℝ) (p : Proj) :
    (moveProjectile radius width dt p).vy = p.vy := by
  unfold moveProjectile
  dsimp only
  split_ifs <;> rfl

/-- After any sequence of per-tick updates, the vertical velocity is the
launch velocity. -/
theorem foldl_moveProjectile_vy (radius width : ℝ) (dts : List ℝ) (p : Proj) :
    (dts.foldl (fun q dt => moveProjectile radius width dt q) p).vy = p.vy := by
  induction dts generalizing p with
  | nil => rfl
  | cons a l ih => rw [List.foldl_cons, ih, moveProjectile_vy]

/-- C8: when the integrated position reaches or crosses a side boundary, the
position is clamped to exactly that boundary and only the sign of the
horizontal velocity flips; the vertical velocity is unchanged.  In
particular, reaching `x = radius + 8 - 5` clamps to `radius + 8` and the
projectile continues rightward. -/
theorem moveProjectile_wallBounce (radius width dt : ℝ) (p : Proj) :
    (p.x + p.vx * dt ≤ radius + 8 →
      moveProjectile radius width dt p
        = ⟨radius + 8, p.y + p.vy * dt, -p.vx, p.vy⟩) ∧
    (¬ p.x + p.vx * dt ≤ radius + 8 → width - radius - 8 ≤ p.x + p.vx * dt →
      moveProjectile radius width dt p
        = ⟨width - radius - 8, p.y + p.vy * dt, -p.vx, p.vy⟩) ∧
    (¬ p.x + p.vx * dt ≤ radius + 8 → ¬ width - radius - 8 ≤ p.x + p.vx * dt →
      moveProjectile radius width dt p
        = ⟨p.x + p.vx * dt, p.y + p.vy * dt, p.vx, p.vy⟩) ∧
    (p.x + p.vx * dt = radius + 8 - 5 →
      (moveProjectile radius width dt p).x = radius + 8 ∧
      (moveProjectile radius width dt p).vx = -p.vx ∧
      (moveProjectile radius width dt p).vy = p.vy ∧
      (p.vx < 0 → 0 < (moveProjectile radius width dt p).vx)) := by
  refine ⟨?_, ?_, ?_, ?_⟩
  · intro h1
    unfold moveProjectile
    dsimp only
    rw [if_pos h1]
  · intro h1 h2
    unfold moveProjectile
    dsimp only
    rw [if_neg h1, if_pos h2]
  · intro h1 h2
    unfold moveProjectile
    dsimp only
    rw [if_neg h1, if_neg h2]
  · intro h
    have h1 : p.x + p.vx * dt ≤ radius + 8 := by rw [h]; linarith
    have he : moveProjectile radius width dt p
        = ⟨radius + 8, p.y + p.vy * dt, -p.vx, p.vy⟩ := by
      unfold moveProjectile
      dsimp only
      rw [if_pos h1]
    rw [he]
    exact ⟨rfl, rfl, rfl, fun hv => by simpa using neg_pos.mpr hv⟩

theorem moveProjectile_wallBounce_witness :
    ((8 : ℝ) + (-5) * 1 ≤ 10 + 8) ∧
      moveProjectile 10 100 1 ⟨8, 50, -5, -3⟩
        = ⟨10 + 8, 50 + (-3) * 1, -(-5), -3⟩ :=
  ⟨by norm_num, (moveProjectile_wallBounce 10 100 1 ⟨8, 50, -5, -3⟩).1 (by norm_num)⟩

/-- C9: the launch direction's vertical component is clamped to at most
`-0.15` and re-normalized, so the launch vertical velocity is strictly
negative (upward), and it stays strictly negative after every per-tick
update, which can only flip the horizontal velocity. -/
theorem fireProjectile_upward (speed shooterX shooterY targetX targetY : ℝ)
    (hspeed : 0 < speed) (radius width : ℝ) (dts : List ℝ) :
    (fireProjectile speed shooterX shooterY targetX targetY).vy < 0 ∧
    (dts.foldl (fun q dt => moveProjectile radius width dt q)
        (fireProjectile speed shooterX shooterY targetX targetY)).vy
      = (fireProjectile speed shooterX shooterY targetX targetY).vy ∧
    (dts.foldl (fun q dt => moveProjectile radius width dt q)
        (fireProjectile speed shooterX shooterY targetX targetY)).vy < 0 := by
  have key : (fireDirection shooterX shooterY targetX targetY).2 < 0 := by
    unfold fireDirection
    dsimp only
    set d := vecNormalize (targetX - shooterX, targetY - shooterY) with hd
    set dir2 := if -0.15 < d.2 then (d.1, -0.15) else d with hdir2
    have h2 : dir2.2 ≤ -0.15 := by
      rw [hdir2]
      by_cases h : (-0.15 : ℝ) < d.2
      · rw [if_pos h]
      · rw [if_neg h]; linarith
    unfold vecNormalize
    dsimp only
    have habs : (0.15 : ℝ) ≤ |dir2.2| := by
      rw [abs_of_nonpos (by linarith)]
      linarith
    have hsq : Real.sqrt (dir2.2 * dir2.2) = |dir2.2| :=
      Real.sqrt_mul_self_eq_abs _
    have hmono : Real.sqrt (dir2.2 * dir2.2)
        ≤ Real.sqrt (dir2.1 * dir2.1 + dir2.2 * dir2.2) :=
      Real.sqrt_le_sqrt (by nlinarith [mul_self_nonneg dir2.1])
    have hlen : 0 < Real.sqrt (dir2.1 * dir2.1 + dir2.2 * dir2.2) := by
      rw [hsq] at hmono
      linarith
    rw [if_pos hlen]
    exact div_neg_of_neg_of_pos (by linarith) hlen
  have hvy : (fireProjectile speed shooterX shooterY targetX targetY).vy
      = (fireDirection shooterX shooterY targetX targetY).2 * speed := rfl
  have h0 : (fireProjectile speed shooterX shooterY targetX targetY).vy < 0 := by
    rw [hvy]
    exact mul_neg_of_neg_of_pos key hspeed
  have hfold := foldl_moveProjectile_vy radius width dts
    (fireProjectile speed shooterX shooterY targetX targetY)
  exact ⟨h0, hfold, by rw [hfold]; exact h0⟩

theorem fireProjectile_upward_witness :
    (0 : ℝ) < 1 ∧ (fireProjectile 1 0 0 0 0).vy < 0 :=
  ⟨by norm_num, (fireProjectile_upward 1 0 0 0 0 (by norm_num) 10 100 []).1⟩

theorem mem_scanAux (C n : ℕ) (a b : ℤ) :
    ((a, b) : Cell) ∈ (List.range n).flatMap
        (fun r => (List.range C).map (fun c => (Int.ofNat r, Int.ofNat c))) ↔
      0 ≤ a ∧ a < (n : ℤ) ∧ 0 ≤ b ∧ b < (C : ℤ) := by
  constructor
  · intro h
    obtain ⟨r, hr, hm⟩ := List.mem_flatMap.mp h
    obtain ⟨c, hc, heq⟩ := (@List.mem_map ℕ Cell (a, b)
      (fun c => (Int.ofNat r, Int.ofNat c)) (List.range C)).mp hm
    rw [List.mem_range] at hr hc
    have h1 : ((r : ℕ) : ℤ) = a := congrArg Prod.fst heq
    have h2 : ((c : ℕ) : ℤ) = b := congrArg Prod.snd heq
    omega
  · intro h
    obtain ⟨h1, h2, h3, h4⟩ := h
    refine List.mem_flatMap.mpr ⟨a.toNat, ?_, ?_⟩
    · rw [List.mem_range]; omega
    · refine (@List.mem_map ℕ Cell (a, b)
        (fun c => (Int.ofNat a.toNat, Int.ofNat c)) (List.range C)).mpr
        ⟨b.toNat, ?_, ?_⟩
      · rw [List.mem_range]; omega
      · rw [Prod.mk.injEq, Int.ofNat_eq_coe, Int.ofNat_eq_coe]
        constructor <;> omega

theorem mem_scanCells (g : GridCfg) (cell : Cell) :
    cell ∈ scanCells g ↔ InWindow g cell := by
  obtain ⟨a, b⟩ := cell
  unfold scanCells InWindow
  dsimp only
  exact mem_scanAux g.cols (rowsToCheck g) a b

theorem pairwise_scanCells (g : GridCfg) :
    (scanCells g).Pairwise (fun a b => scanIdx g a < scanIdx g b) := by
  have main : ∀ n : ℕ, ((List.range n).flatMap
      (fun r => (List.range g.cols).map
        (fun c => (Int.ofNat r, Int.ofNat c)))).Pairwise
      (fun a b => scanIdx g a < scanIdx g b) := by
    intro n
    induction n with
    | zero => simp
    | succ n ih =>
      rw [List.range_succ, List.flatMap_append, List.flatMap_cons, List.flatMap_nil,
        List.append_nil]
      rw [List.pairwise_append]
      refine ⟨ih, ?_, ?_⟩
      · refine List.Pairwise.map _ ?_ (List.pairwise_lt_range g.cols)
        intro c1 c2 h
        unfold scanIdx
        dsimp only
        simp only [Int.ofNat_eq_coe]
        omega
      · intro x hx y hy
        obtain ⟨xa, xb⟩ := x
        have hx2 := (mem_scanAux g.cols n xa xb).mp hx
        obtain ⟨ya, yb⟩ := y
        obtain ⟨c2, hc2, heq⟩ := (@List.mem_map ℕ Cell (ya, yb)
          (fun c => (Int.ofNat n, Int.ofNat c)) (List.range g.cols)).mp hy
        rw [List.mem_range] at hc2
        have hy1 : ((n : ℕ) : ℤ) = ya := congrArg Prod.fst heq
        have hy2 : ((c2 : ℕ) : ℤ) = yb := congrArg Prod.snd heq
        unfold scanIdx
        dsimp only
        rw [← hy1, ← hy2]
        have h1 : xa * (g.cols : ℤ) + xb < (xa + 1) * (g.cols : ℤ) := by
          have hxb : xb < (g.cols : ℤ) := hx2.2.2.2
          nlinarith
        have h2 : (xa + 1) * (g.cols : ℤ) ≤ (n : ℤ) * (g.cols : ℤ) := by
          have hr2 : xa + 1 ≤ (n : ℤ) := by omega
          have hc0 : (0 : ℤ) ≤ (g.cols : ℤ) := by omega
          exact mul_le_mul_of_nonneg_right hr2 hc0
        have h3 : (n : ℤ) * (g.cols : ℤ) ≤ (n : ℤ) * (g.cols : ℤ) + yb := by omega
        omega
  exact main (rowsToCheck g)

theorem foldl_bestStep_spec (g : GridCfg) (occ : Occ) (wx wy : ℚ)
    (l : List Cell) (hl : l.Pairwise (fun a b => scanIdx g a < scanIdx g b)) :
    (l.foldl (bestStep g occ wx wy) none = none → ∀ e ∈ l, occHas occ e = true) ∧
    (∀ rc d, l.foldl (bestStep g occ wx wy) none = some (rc, d) →
      rc ∈ l ∧ occHas occ rc = false ∧ d = dist2 g wx wy rc ∧
      ∀ e ∈ l, occHas occ e = false →
        (d ≤ dist2 g wx wy e ∧
          (dist2 g wx wy e = d → scanIdx g rc ≤ scanIdx g e))) := by
  induction l using List.reverseRecOn with
  | nil => simp
  | append_singleton l e ih =>
    obtain ⟨hp1, _, hcross⟩ := List.pairwise_append.mp hl
    have ih' := ih hp1
    rw [List.foldl_append]
    simp only [List.foldl_cons, List.foldl_nil]
    cases hacc : l.foldl (bestStep g occ wx wy) none with
    | none =>
      by_cases hocc : occHas occ e = true
      · constructor
        · intro _ x hx
          rcases List.mem_append.mp hx with hx | hx
          · exact ih'.1 hacc x hx
          · rw [List.mem_singleton.mp hx]; exact hocc
        · intro rc d hres
          rw [bestStep, if_pos hocc] at hres
          exact absurd hres (by simp)
      · constructor
        · intro hres
          rw [bestStep, if_neg hocc] at hres
          exact absurd hres (by simp)
        · intro rc d hres
          rw [bestStep, if_neg hocc] at hres
          simp only [Option.some.injEq, Prod.mk.injEq] at hres
          obtain ⟨h1, h2⟩ := hres
          subst h1
          refine ⟨List.mem_append.mpr (Or.inr (List.mem_singleton.mpr rfl)),
            by simpa using hocc, h2.symm, ?_⟩
          intro x hx hxfree
          rcases List.mem_append.mp hx with hx | hx
          · exact absurd (ih'.1 hacc x hx) (by simp [hxfree])
          · rw [List.mem_singleton.mp hx]
            exact ⟨by rw [h2], fun _ => le_refl _⟩
    | some b =>
      obtain ⟨brc, bd⟩ := b
      have hb := ih'.2 brc bd hacc
      have hbmem : brc ∈ l ++ [e] := List.mem_append.mpr (Or.inl hb.1)
      by_cases hocc : occHas occ e = true
      · constructor
        · intro hres
          rw [bestStep, if_pos hocc] at hres
          exact absurd hres (by simp)
        · intro rc d hres
          rw [bestStep, if_pos hocc] at hres
          simp only [Option.some.injEq, Prod.mk.injEq] at hres
          obtain ⟨h1, h2⟩ := hres
          subst h1; subst h2
          refine ⟨hbmem, hb.2.1, hb.2.2.1, ?_⟩
          intro x hx hxfree
          rcases List.mem_append.mp hx with hx | hx
          · exact hb.2.2.2 x hx hxfree
          · rw [List.mem_singleton.mp hx] at hxfree
            exact absurd hocc (by simp [hxfree])
      · rw [bestStep, if_neg hocc]
        simp only
        by_cases hlt : dist2 g wx wy e < bd
        · rw [if_pos hlt]
          constructor
          · intro hres; exact absurd hres (by simp)
          · intro rc d hres
            simp only [Option.some.injEq, Prod.mk.injEq] at hres
            obtain ⟨h1, h2⟩ := hres
            subst h1; subst h2
            refine ⟨List.mem_append.mpr (Or.inr (List.mem_singleton.mpr rfl)),
              by simpa using hocc, rfl, ?_⟩
            intro x hx hxfree
            rcases List.mem_append.mp hx with hx | hx
            · have := (hb.2.2.2 x hx hxfree).1
              rw [hb.2.2.1] at hlt
              exact ⟨by linarith, fun htie => by linarith⟩
            · rw [List.mem_singleton.mp hx]
              exact ⟨le_refl _, fun _ => le_refl _⟩
        · rw [if_neg hlt]
          constructor
          · intro hres; exact absurd hres (by simp)
          · intro rc d hres
            simp only [Option.some.injEq, Prod.mk.injEq] at hres
            obtain ⟨h1, h2⟩ := hres
            subst h1; subst h2
            refine ⟨hbmem, hb.2.1, hb.2.2.1, ?_⟩
            intro x hx hxfree
            rcases List.mem_append.mp hx with hx | hx
            · exact hb.2.2.2 x hx hxfree
            · rw [List.mem_singleton.mp hx]
              have hge : bd ≤ dist2 g wx wy e := le_of_not_lt hlt
              refine ⟨hge, fun _ => ?_⟩
              exact le_of_lt (hcross brc hb.1 e (List.mem_singleton.mpr rfl))

/-- C1: `findNearestEmptyCell` scans the bounded window
`[0, maxRows + 8) × [0, cols)`, skips occupied cells, and returns the free
cell of minimum squared Euclidean distance from its `cellToWorld` position
to `(wx, wy)`, the first cell in row-major scan order winning ties; it
returns `none` iff every cell of the window is occupied. -/
theorem findNearestEmptyCell_spec (g : GridCfg) (occ : Occ) (wx wy : ℚ) :
    (findNearestEmptyCell g occ wx wy = none ↔
      ∀ cell : Cell, InWindow g cell → occHas occ cell = true) ∧
    (∀ rc : Cell, findNearestEmptyCell g occ wx wy = some rc →
      InWindow g rc ∧ occHas occ rc = false ∧
      ∀ e : Cell, InWindow g e → occHas occ e = false →
        (dist2 g wx wy rc ≤ dist2 g wx wy e ∧
          (dist2 g wx wy e = dist2 g wx wy rc → scanIdx g rc ≤ scanIdx g e))) := by
  have hspec := foldl_bestStep_spec g occ wx wy (scanCells g) (pairwise_scanCells g)
  unfold findNearestEmptyCell
  constructor
  · constructor
    · intro h cell hcell
      rw [Option.map_eq_none'] at h
      exact hspec.1 h cell ((mem_scanCells g cell).mpr hcell)
    · intro h
      cases hacc : (scanCells g).foldl (bestStep g occ wx wy) none with
      | none => simp
      | some b =>
        obtain ⟨brc, bd⟩ := b
        have hb := hspec.2 brc bd hacc
        have := h brc ((mem_scanCells g brc).mp hb.1)
        rw [hb.2.1] at this
        exact absurd this (by simp)
  · intro rc hres
    rw [Option.map_eq_some'] at hres
    obtain ⟨⟨brc, bd⟩, hacc, hfst⟩ := hres
    simp only at hfst
    subst hfst
    have hb := hspec.2 brc bd hacc
    refine ⟨(mem_scanCells g brc).mp hb.1, hb.2.1, ?_⟩
    intro e he hefree
    have := hb.2.2.2 e ((mem_scanCells g e).mpr he) hefree
    rw [hb.2.2.1] at this
    exact this

theorem findNearestEmptyCell_spec_witness :
    findNearestEmptyCell ⟨1, 0, 0, 1, 2, 2⟩ [] 19 1 = some ((0 : ℤ), (0 : ℤ)) ∧
      InWindow ⟨1, 0, 0, 1, 2, 2⟩ ((0 : ℤ), (0 : ℤ)) ∧
      occHas [] ((0 : ℤ), (0 : ℤ)) = false ∧
      InWindow ⟨1, 0, 0, 1, 2, 2⟩ ((1 : ℤ), (0 : ℤ)) ∧
      occHas [] ((1 : ℤ), (0 : ℤ)) = false ∧
      dist2 ⟨1, 0, 0, 1, 2, 2⟩ 19 1 ((0 : ℤ), (0 : ℤ))
        ≤ dist2 ⟨1, 0, 0, 1, 2, 2⟩ 19 1 ((1 : ℤ), (0 : ℤ)) := by
  have heval : findNearestEmptyCell ⟨1, 0, 0, 1, 2, 2⟩ [] 19 1
      = some ((0 : ℤ), (0 : ℤ)) := by
    norm_num [findNearestEmptyCell, scanCells, rowsToCheck, List.range_succ, bestStep,
      occHas, occGet, dist2, cellToWorld,
      show Int.tmod 0 2 = 0 from by decide, show Int.tmod 1 2 = 1 from by decide,
      show Int.tmod 2 2 = 0 from by decide, show Int.tmod 3 2 = 1 from by decide,
      show Int.tmod 4 2 = 0 from by decide, show Int.tmod 5 2 = 1 from by decide,
      show Int.tmod 6 2 = 0 from by decide, show Int.tmod 7 2 = 1 from by decide]
  refine ⟨heval, by decide, rfl, by decide, rfl, ?_⟩
  exact (((findNearestEmptyCell_spec ⟨1, 0, 0, 1, 2, 2⟩ [] 19 1).2
    ((0 : ℤ), (0 : ℤ)) heval).2.2 ((1 : ℤ), (0 : ℤ)) (by decide) rfl).1

theorem occGet_some_mem_occKeys {occ : Occ} {cell : Cell} {col : Color}
    (hg : occGet occ cell = some col) : cell ∈ occKeys occ := by
  unfold occGet at hg
  cases hf : occ.find? (fun e => e.1 == cell) with
  | none => rw [hf] at hg; simp at hg
  | some e =>
    have he : e ∈ occ := List.mem_of_find?_eq_some hf
    have heq := List.find?_some hf
    have he1 : e.1 = cell := by simpa using heq
    unfold occKeys
    simp only [List.mem_toFinset, List.mem_map]
    exact ⟨e, he, he1⟩

theorem visitStep_measure (occ : Occ) (target : Color) (v : Finset Cell)
    (q : List Cell) (nb : Cell) :
    bfsMeasure occ (visitStep occ target (v, q) nb).1
      (visitStep occ target (v, q) nb).2 ≤ bfsMeasure occ v q := by
  by_cases hm : nb ∈ v
  · simp [visitStep, hm]
  · have hsub : occKeys occ \ insert nb v ⊆ occKeys occ \ v :=
      Finset.sdiff_subset_sdiff (le_refl _) (Finset.subset_insert _ _)
    have hcard := Finset.card_le_card hsub
    cases hg : occGet occ nb with
    | none =>
      simp only [visitStep, hm, hg, ite_false, if_false]
      simp only [bfsMeasure]
      omega
    | some col =>
      have hmem : nb ∈ occKeys occ := occGet_some_mem_occKeys hg
      have hins : occKeys occ \ insert nb v = (occKeys occ \ v).erase nb :=
        Finset.sdiff_insert _ _ _
      have hnbmem : nb ∈ occKeys occ \ v := Finset.mem_sdiff.mpr ⟨hmem, hm⟩
      have hcard2 : (occKeys occ \ insert nb v).card = (occKeys occ \ v).card - 1 := by
        rw [hins]; exact Finset.card_erase_of_mem hnbmem
      have hpos : 1 ≤ (occKeys occ \ v).card := Finset.card_pos.mpr ⟨nb, hnbmem⟩
      by_cases hc : col = target
      · simp only [visitStep, hm, hg, hc, ite_false, ite_true, if_false]
        simp only [bfsMeasure, List.length_append, List.length_cons, List.length_nil]
        omega
      · simp only [visitStep, hm, hg, hc, ite_false, if_false]
        simp only [bfsMeasure]
        omega

theorem visitFold_measure (occ : Occ) (target : Color) (l : List Cell) :
    ∀ (v : Finset Cell) (q : List Cell),
      bfsMeasure occ (l.foldl (visitStep occ target) (v, q)).1
        (l.foldl (visitStep occ target) (v, q)).2 ≤ bfsMeasure occ v q := by
  induction l with
  | nil => intro v q; exact le_refl _
  | cons nb l ih =>
    intro v q
    calc bfsMeasure occ ((nb :: l).foldl (visitStep occ target) (v, q)).1
          ((nb :: l).foldl (visitStep occ target) (v, q)).2
        ≤ bfsMeasure occ (visitStep occ target (v, q) nb).1
          (visitStep occ target (v, q) nb).2 := by
          simpa using ih (visitStep occ target (v, q) nb).1
            (visitStep occ target (v, q) nb).2
      _ ≤ bfsMeasure occ v q := visitStep_measure occ target v q nb

theorem visitNeighbors_measure (cols : ℕ) (occ : Occ) (target : Color)
    (cur : Cell) (v : Finset Cell) (q : List Cell) :
    bfsMeasure occ (visitNeighbors cols occ target cur (v, q)).1
      (visitNeighbors cols occ target cur (v, q)).2 ≤ bfsMeasure occ v q :=
  visitFold_measure occ target (neighbors cols cur.1 cur.2) v q

theorem occGet_map_set_ne (occ : Occ) (cell : Cell) (color : Color) (z : Cell)
    (hz : z ≠ cell) :
    occGet (occ.map (fun e => if e.1 == cell then (cell, color) else e)) z
      = occGet occ z := by
  induction occ with
  | nil => rfl
  | cons e occ ih =>
    by_cases he : e.1 = cell
    · have h1 : (e.1 == cell) = true := by simpa using he
      unfold occGet
      rw [List.map_cons]
      rw [h1]
      simp only [if_true, ite_true]
      rw [List.find?_cons, List.find?_cons]
      have h2 : (((cell, color) : Cell × Color).1 == z) = false := by
        simp only [beq_eq_false_iff_ne, ne_eq]
        intro h; exact hz h.symm
      have h3 : (e.1 == z) = false := by
        simp only [beq_eq_false_iff_ne, ne_eq]
        rw [he]
        intro h; exact hz h.symm
      rw [h2, h3]
      exact ih
    · have h1 : (e.1 == cell) = false := by simpa using he
      unfold occGet
      rw [List.map_cons, h1]
      simp only [Bool.false_eq_true, if_false, ite_false]
      rw [List.find?_cons, List.find?_cons]
      cases h4 : (e.1 == z) with
      | true => rfl
      | false => exact ih

theorem occGet_map_set_self (occ : Occ) (cell : Cell) (color : Color)
    (hhas : occHas occ cell = true) :
    occGet (occ.map (fun e => if e.1 == cell then (cell, color) else e)) cell
      = some color := by
  induction occ with
  | nil => simp [occHas, occGet] at hhas
  | cons e occ ih =>
    by_cases he : e.1 = cell
    · have h1 : (e.1 == cell) = true := by simpa using he
      unfold occGet
      rw [List.map_cons, h1]
      simp only [if_true, ite_true]
      rw [List.find?_cons]
      have h2 : (((cell, color) : Cell × Color).1 == cell) = true := by simp
      rw [h2]
      rfl
    · have h1 : (e.1 == cell) = false := by simpa using he
      have hhas2 : occHas occ cell = true := by
        unfold occHas occGet at hhas ⊢
        rw [List.find?_cons, h1] at hhas
        exact hhas
      unfold occGet
      rw [List.map_cons, h1]
      simp only [Bool.false_eq_true, if_false, ite_false]
      rw [List.find?_cons, h1]
      exact ih hhas2

theorem occGet_append_single (occ : Occ) (cell : Cell) (color : Color) (z : Cell) :
    occGet (occ ++ [(cell, color)]) z
      = if occHas occ z then occGet occ z
        else if z = cell then some color else none := by
  induction occ with
  | nil =>
    unfold occGet occHas occGet
    simp only [List.nil_append, List.find?_nil, Option.map_none', Option.isSome_none,
      Bool.false_eq_true, if_false, ite_false, List.find?_cons]
    by_cases hz : z = cell
    · have h1 : (((cell, color) : Cell × Color).1 == z) = true := by
        simp [hz.symm]
      rw [h1]
      simp [hz]
    · have h1 : (((cell, color) : Cell × Color).1 == z) = false := by
        simp only [beq_eq_false_iff_ne, ne_eq]
        intro h; exact hz h.symm
      rw [h1]
      simp [hz]
  | cons e occ ih =>
    unfold occGet occHas occGet
    rw [List.cons_append, List.find?_cons, List.find?_cons]
    cases h4 : (e.1 == z) with
    | true => simp
    | false => exact ih

theorem occGet_occSet (occ : Occ) (cell : Cell) (color : Color) (z : Cell) :
    occGet (occSet occ cell color) z
      = if z = cell then some color else occGet occ z := by
  unfold occSet
  by_cases hhas : occHas occ cell
  · rw [if_pos hhas]
    by_cases hz : z = cell
    · subst hz
      rw [if_pos rfl]
      exact occGet_map_set_self occ z color hhas
    · rw [if_neg hz]
      exact occGet_map_set_ne occ cell color z hz
  · rw [if_neg hhas]
    rw [occGet_append_single]
    by_cases hz : z = cell
    · subst hz
      have h1 : occHas occ z = false := by simpa using hhas
      rw [h1]
      simp
    · rw [if_neg hz]
      cases h1 : occHas occ z with
      | true => simp [hz]
      | false =>
        unfold occHas at h1
        have h2 : occGet occ z = none := by
          cases h3 : occGet occ z with
          | none => rfl
          | some c => rw [h3] at h1; simp at h1
        simp [h2, hz]

theorem occGet_occDelete (occ : Occ) (cell : Cell) (z : Cell) :
    occGet (occDelete occ cell) z = if z = cell then none else occGet occ z := by
  induction occ with
  | nil => unfold occDelete occGet; simp
  | cons e occ ih =>
    unfold occDelete occGet at ih ⊢
    rw [List.filter_cons]
    by_cases he : e.1 = cell
    · have h1 : (!(e.1 == cell)) = false := by simpa using he
      rw [h1]
      simp only [Bool.false_eq_true, if_false, ite_false]
      rw [ih]
      by_cases hz : z = cell
      · simp [hz]
      · rw [if_neg hz, if_neg hz]
        rw [List.find?_cons]
        have h2 : (e.1 == z) = false := by
          simp only [beq_eq_false_iff_ne, ne_eq]
          rw [he]
          intro h; exact hz h.symm
        rw [h2]
    · have h1 : (!(e.1 == cell)) = true := by simpa using he
      rw [h1]
      simp only [if_true, ite_true]
      rw [List.find?_cons, List.find?_cons]
      cases h4 : (e.1 == z) with
      | true =>
        have h5 : z ≠ cell := by
          have : e.1 = z := by simpa using h4
          rw [← this]
          exact he
        simp [h5]
      | false => exact ih

theorem occGet_foldl_occDelete (l : List Cell) :
    ∀ (occ : Occ) (z : Cell),
      occGet (l.foldl occDelete occ) z
        = if z ∈ l then none else occGet occ z := by
  induction l with
  | nil => intro occ z; simp
  | cons a l ih =>
    intro occ z
    rw [List.foldl_cons, ih]
    by_cases hz : z ∈ l
    · simp [hz]
    · rw [if_neg hz]
      rw [occGet_occDelete]
      by_cases hza : z = a
      · simp [hza]
      · have : z ∉ a :: l := by
          intro h
          rcases List.mem_cons.mp h with h | h
          · exact hza h
          · exact hz h
        simp only [this, Bool.false_eq_true, if_false, ite_false]
        rw [if_neg hza]

theorem visitStep_spec (occ : Occ) (target : Color) (v : Finset Cell)
    (q : List Cell) (nb : Cell) :
    v ⊆ (visitStep occ target (v, q) nb).1 ∧
    (∀ x ∈ (visitStep occ target (v, q) nb).1, x ∈ v ∨ x = nb) ∧
    nb ∈ (visitStep occ target (v, q) nb).1 ∧
    (∃ new, (visitStep occ target (v, q) nb).2 = q ++ new ∧
      ∀ x ∈ new, x = nb ∧ occGet occ x = some target ∧ x ∉ v) ∧
    ((∀ x ∈ q, x ∈ v) → ∀ x ∈ (visitStep occ target (v, q) nb).2,
      x ∈ (visitStep occ target (v, q) nb).1) ∧
    (q.Nodup → (∀ x ∈ q, x ∈ v) → (visitStep occ target (v, q) nb).2.Nodup) ∧
    (∀ x ∈ (visitStep occ target (v, q) nb).1, occGet occ x = some target →
      x ∈ v ∨ x ∈ (visitStep occ target (v, q) nb).2) := by
  by_cases hm : nb ∈ v
  · have hstep : visitStep occ target (v, q) nb = (v, q) := by
      simp [visitStep, hm]
    rw [hstep]
    refine ⟨le_refl _, fun x hx => Or.inl hx, hm, ⟨[], by simp, by simp⟩,
      fun h x hx => h x hx, fun h _ => h, fun x hx _ => Or.inl hx⟩
  · cases hg : occGet occ nb with
    | none =>
      have hstep : visitStep occ target (v, q) nb = (insert nb v, q) := by
        simp [visitStep, hm, hg]
      rw [hstep]
      refine ⟨Finset.subset_insert _ _, ?_, Finset.mem_insert_self _ _,
        ⟨[], by simp, by simp⟩, ?_, fun h _ => h, ?_⟩
      · intro x hx
        rcases Finset.mem_insert.mp hx with h | h
        · exact Or.inr h
        · exact Or.inl h
      · intro h x hx
        exact Finset.mem_insert_of_mem (h x hx)
      · intro x hx hc
        rcases Finset.mem_insert.mp hx with h | h
        · subst h; rw [hg] at hc; cases hc
        · exact Or.inl h
    | some col =>
      by_cases hc : col = target
      · rw [hc] at hg
        have hstep : visitStep occ target (v, q) nb = (insert nb v, q ++ [nb]) := by
          simp [visitStep, hm, hg]
        rw [hstep]
        refine ⟨Finset.subset_insert _ _, ?_, Finset.mem_insert_self _ _,
          ⟨[nb], rfl, ?_⟩, ?_, ?_, ?_⟩
        · intro x hx
          rcases Finset.mem_insert.mp hx with h | h
          · exact Or.inr h
          · exact Or.inl h
        · intro x hx
          rw [List.mem_singleton.mp hx]
          exact ⟨rfl, hg, hm⟩
        · intro h x hx
          rcases List.mem_append.mp hx with h2 | h2
          · exact Finset.mem_insert_of_mem (h x h2)
          · rw [List.mem_singleton.mp h2]
            exact Finset.mem_insert_self _ _
        · intro hnd hsub
          rw [List.nodup_append]
          refine ⟨hnd, List.nodup_singleton _, ?_⟩
          intro x hx hx2
          rw [List.mem_singleton.mp hx2] at hx
          exact hm (hsub nb hx)
        · intro x hx _
          rcases Finset.mem_insert.mp hx with h | h
          · subst h
            exact Or.inr (List.mem_append.mpr (Or.inr (List.mem_singleton.mpr rfl)))
          · exact Or.inl h
      · have hstep : visitStep occ target (v, q) nb = (insert nb v, q) := by
          simp [visitStep, hm, hg, hc]
        rw [hstep]
        refine ⟨Finset.subset_insert _ _, ?_, Finset.mem_insert_self _ _,
          ⟨[], by simp, by simp⟩, ?_, fun h _ => h, ?_⟩
        · intro x hx
          rcases Finset.mem_insert.mp hx with h | h
          · exact Or.inr h
          · exact Or.inl h
        · intro h x hx
          exact Finset.mem_insert_of_mem (h x hx)
        · intro x hx hcx
          rcases Finset.mem_insert.mp hx with h | h
          · subst h
            rw [hg] at hcx
            exact absurd (Option.some.inj hcx) hc
          · exact Or.inl h

theorem visitFold_spec (occ : Occ) (target : Color) (l : List Cell) :
    ∀ (v : Finset Cell) (q : List Cell),
      v ⊆ (l.foldl (visitStep occ target) (v, q)).1 ∧
      (∀ x ∈ (l.foldl (visitStep occ target) (v, q)).1, x ∈ v ∨ x ∈ l) ∧
      (∀ x ∈ l, x ∈ (l.foldl (visitStep occ target) (v, q)).1) ∧
      (∃ new, (l.foldl (visitStep occ target) (v, q)).2 = q ++ new ∧
        ∀ x ∈ new, x ∈ l ∧ occGet occ x = some target ∧ x ∉ v) ∧
      ((∀ x ∈ q, x ∈ v) → ∀ x ∈ (l.foldl (visitStep occ target) (v, q)).2,
        x ∈ (l.foldl (visitStep occ target) (v, q)).1) ∧
      (q.Nodup → (∀ x ∈ q, x ∈ v) →
        (l.foldl (visitStep occ target) (v, q)).2.Nodup) ∧
      (∀ x ∈ (l.foldl (visitStep occ target) (v, q)).1,
        occGet occ x = some target →
        x ∈ v ∨ x ∈ (l.foldl (visitStep occ target) (v, q)).2) := by
  induction l with
  | nil =>
    intro v q
    simp only [List.foldl_nil]
    exact ⟨le_refl _, fun x hx => Or.inl hx, by simp, ⟨[], by simp, by simp⟩,
      fun h x hx => h x hx, fun h _ => h, fun x hx _ => Or.inl hx⟩
  | cons nb l ih =>
    intro v q
    have S := visitStep_spec occ target v q nb
    have IH := ih (visitStep occ target (v, q) nb).1 (visitStep occ target (v, q) nb).2
    have hfold : (nb :: l).foldl (visitStep occ target) (v, q)
        = l.foldl (visitStep occ target) (visitStep occ target (v, q) nb) := by
      rw [List.foldl_cons]
    rw [hfold]
    obtain ⟨S1, S2, S3, ⟨n1, hq1, hn1⟩, S5, S6, S7⟩ := S
    obtain ⟨I1, I2, I3, ⟨n2, hq2, hn2⟩, I5, I6, I7⟩ := IH
    refine ⟨le_trans S1 I1, ?_, ?_, ⟨n1 ++ n2, ?_, ?_⟩, ?_, ?_, ?_⟩
    · intro x hx
      rcases I2 x hx with h | h
      · rcases S2 x h with h2 | h2
        · exact Or.inl h2
        · exact Or.inr (h2 ▸ List.mem_cons_self nb l)
      · exact Or.inr (List.mem_cons_of_mem nb h)
    · intro x hx
      rcases List.mem_cons.mp hx with rfl | h
      · exact I1 S3
      · exact I3 x h
    · rw [hq2, hq1, List.append_assoc]
    · intro x hx
      rcases List.mem_append.mp hx with h | h
      · obtain ⟨he, hc, hv⟩ := hn1 x h
        exact ⟨he ▸ List.mem_cons_self nb l, hc, hv⟩
      · obtain ⟨he, hc, hv⟩ := hn2 x h
        exact ⟨List.mem_cons_of_mem nb he, hc, fun hxv => hv (S1 hxv)⟩
    · intro h
      exact I5 (S5 h)
    · intro hnd h
      exact I6 (S6 hnd h) (S5 h)
    · intro x hx hc
      rcases I7 x hx hc with h | h
      · rcases S7 x h hc with h2 | h2
        · exact Or.inl h2
        · exact Or.inr (hq2 ▸ List.mem_append.mpr (Or.inl h2))
      · exact Or.inr h

theorem reaches_color {cols : ℕ} {occ : Occ} {target : Color} {start b : Cell}
    (h : Relation.ReflTransGen (SameColorStep cols occ target) start b) :
    b = start ∨ occGet occ b = some target := by
  induction h with
  | refl => exact Or.inl rfl
  | tail _ hstep _ => exact Or.inr hstep.2

theorem bfs_correct (cols : ℕ) (occ : Occ) (target : Color) (start : Cell)
    (hstart : occGet occ start = some target) :
    ∀ (fuel : ℕ) (q : List Cell) (visited : Finset Cell) (out : List Cell),
      bfsMeasure occ visited q < fuel →
      BfsInv cols occ target start q visited out →
      (bfs cols occ target fuel q visited out).Nodup ∧
      ∀ z : Cell, z ∈ bfs cols occ target fuel q visited out ↔
        (occGet occ z = some target ∧ Reaches cols occ target start z) := by
  intro fuel
  induction fuel with
  | zero =>
    intro q visited out hlt
    exact absurd hlt (Nat.not_lt_zero _)
  | succ fuel ih =>
    intro q visited out hlt inv
    cases q with
    | nil =>
      have hbfs : bfs cols occ target (fuel + 1) [] visited out = out := by
        simp only [bfs]
      rw [hbfs]
      refine ⟨inv.out_nodup, ?_⟩
      have key : ∀ z : Cell, Relation.ReflTransGen (SameColorStep cols occ target) start z →
          occGet occ z = some target → z ∈ out := by
        intro z hz
        induction hz with
        | refl =>
          intro hc
          rcases inv.vis_cover start inv.start_mem hc with h | h
          · exact absurd h (List.not_mem_nil start)
          · exact h
        | @tail b c hab hstep ih2 =>
          intro hc
          have hbmem : b ∈ out := by
            rcases reaches_color hab with rfl | hb
            · exact ih2 hstart
            · exact ih2 hb
          have hvis := inv.out_closed b hbmem c hstep.1 hstep.2
          rcases inv.vis_cover c hvis hc with h | h
          · exact absurd h (List.not_mem_nil _)
          · exact h
      intro z
      constructor
      · intro hz
        exact inv.out_good z hz
      · intro ⟨hc, hr⟩
        exact key z hr hc
    | cons cur rest =>
      have hrest_nodup := (List.nodup_cons.mp inv.q_nodup).2
      have hcur_notin_rest := (List.nodup_cons.mp inv.q_nodup).1
      have hcur_mem : cur ∈ cur :: rest := List.mem_cons_self cur rest
      have hrest_vis : ∀ x ∈ rest, x ∈ visited :=
        fun x hx => inv.q_vis x (List.mem_cons_of_mem cur hx)
      have hlt2 : bfsMeasure occ visited rest < fuel := by
        simp only [bfsMeasure, List.length_cons] at hlt ⊢
        omega
      cases hg : occGet occ cur with
      | none =>
        have inv2 : BfsInv cols occ target start rest visited out :=
          { q_nodup := hrest_nodup
            out_nodup := inv.out_nodup
            disj := fun x hx => inv.disj x (List.mem_cons_of_mem cur hx)
            start_mem := inv.start_mem
            q_vis := hrest_vis
            q_good := fun x hx => inv.q_good x (List.mem_cons_of_mem cur hx)
            out_vis := inv.out_vis
            out_good := inv.out_good
            vis_cover := by
              intro x hx hc
              rcases inv.vis_cover x hx hc with h | h
              · rcases List.mem_cons.mp h with rfl | h2
                · rw [hg] at hc; cases hc
                · exact Or.inl h2
              · exact Or.inr h
            out_closed := inv.out_closed }
        have hbfs : bfs cols occ target (fuel + 1) (cur :: rest) visited out
            = bfs cols occ target fuel rest visited out := by
          simp only [bfs, hg]
        rw [hbfs]
        exact ih rest visited out hlt2 inv2
      | some col =>
        by_cases hcol : col = target
        · rw [hcol] at hg
          obtain ⟨F1, F2, F3, ⟨new, hnew_eq, hnew⟩, F5, F6, F7⟩ :=
            visitFold_spec occ target (neighbors cols cur.1 cur.2) visited rest
          have hcur_vis := inv.q_vis cur hcur_mem
          have hcur_good := inv.q_good cur hcur_mem
          have hbfs : bfs cols occ target (fuel + 1) (cur :: rest) visited out
              = bfs cols occ target fuel
                  (visitNeighbors cols occ target cur (visited, rest)).2
                  (visitNeighbors cols occ target cur (visited, rest)).1
                  (out ++ [cur]) := by
            simp only [bfs, hg]
            simp
          rw [hbfs]
          have hlt3 : bfsMeasure occ
              (visitNeighbors cols occ target cur (visited, rest)).1
              (visitNeighbors cols occ target cur (visited, rest)).2 < fuel :=
            lt_of_le_of_lt (visitNeighbors_measure cols occ target cur visited rest) hlt2
          have inv2 : BfsInv cols occ target start
              (visitNeighbors cols occ target cur (visited, rest)).2
              (visitNeighbors cols occ target cur (visited, rest)).1
              (out ++ [cur]) :=
            { q_nodup := F6 hrest_nodup hrest_vis
              out_nodup := by
                rw [List.nodup_append]
                refine ⟨inv.out_nodup, List.nodup_singleton _, ?_⟩
                intro x hx hx2
                rw [List.mem_singleton.mp hx2] at hx
                exact inv.disj cur hcur_mem hx
              disj := by
                intro x hx hxo
                rw [show (visitNeighbors cols occ target cur (visited, rest)).2
                  = rest ++ new from hnew_eq] at hx
                rcases List.mem_append.mp hxo with ho | ho
                · rcases List.mem_append.mp hx with h | h
                  · exact inv.disj x (List.mem_cons_of_mem cur h) ho
                  · exact (hnew x h).2.2 (inv.out_vis x ho)
                · have hxc : x = cur := List.mem_singleton.mp ho
                  rcases List.mem_append.mp hx with h | h
                  · exact hcur_notin_rest (hxc ▸ h)
                  · exact (hnew x h).2.2 (hxc ▸ hcur_vis)
              start_mem := F1 inv.start_mem
              q_vis := F5 hrest_vis
              q_good := by
                intro x hx
                rw [show (visitNeighbors cols occ target cur (visited, rest)).2
                  = rest ++ new from hnew_eq] at hx
                rcases List.mem_append.mp hx with h | h
                · exact inv.q_good x (List.mem_cons_of_mem cur h)
                · obtain ⟨hxl, hxc, _⟩ := hnew x h
                  exact ⟨hxc, Relation.ReflTransGen.tail hcur_good.2 ⟨hxl, hxc⟩⟩
              out_vis := by
                intro x hx
                rcases List.mem_append.mp hx with h | h
                · exact F1 (inv.out_vis x h)
                · exact List.mem_singleton.mp h ▸ F1 hcur_vis
              out_good := by
                intro x hx
                rcases List.mem_append.mp hx with h | h
                · exact inv.out_good x h
                · exact List.mem_singleton.mp h ▸ hcur_good
              vis_cover := by
                intro x hx hc
                rcases F7 x hx hc with h | h
                · rcases inv.vis_cover x h hc with h2 | h2
                  · rcases List.mem_cons.mp h2 with rfl | h3
                    · exact Or.inr (List.mem_append.mpr
                        (Or.inr (List.mem_singleton.mpr rfl)))
                    · refine Or.inl ?_
                      rw [show (visitNeighbors cols occ target cur (visited, rest)).2
                        = rest ++ new from hnew_eq]
                      exact List.mem_append.mpr (Or.inl h3)
                  · exact Or.inr (List.mem_append.mpr (Or.inl h2))
                · exact Or.inl h
              out_closed := by
                intro x hx nb hnb hnbc
                rcases List.mem_append.mp hx with h | h
                · exact F1 (inv.out_closed x h nb hnb hnbc)
                · have hxc : x = cur := List.mem_singleton.mp h
                  rw [hxc] at hnb
                  exact F3 nb hnb }
          exact ih _ _ _ hlt3 inv2
        · have inv2 : BfsInv cols occ target start rest visited out :=
            { q_nodup := hrest_nodup
              out_nodup := inv.out_nodup
              disj := fun x hx => inv.disj x (List.mem_cons_of_mem cur hx)
              start_mem := inv.start_mem
              q_vis := hrest_vis
              q_good := fun x hx => inv.q_good x (List.mem_cons_of_mem cur hx)
              out_vis := inv.out_vis
              out_good := inv.out_good
              vis_cover := by
                intro x hx hc
                rcases inv.vis_cover x hx hc with h | h
                · rcases List.mem_cons.mp h with rfl | h2
                  · rw [hg] at hc
                    exact absurd (Option.some.inj hc) hcol
                  · exact Or.inl h2
                · exact Or.inr h
              out_closed := inv.out_closed }
          have hbfs : bfs cols occ target (fuel + 1) (cur :: rest) visited out
              = bfs cols occ target fuel rest visited out := by
            simp only [bfs, hg, if_neg hcol]
          rw [hbfs]
          exact ih rest visited out hlt2 inv2

theorem findMatchGroup_correct (cols : ℕ) (occ : Occ) (start : Cell)
    (target : Color) (hstart : occGet occ start = some target) :
    (findMatchGroup cols occ start target).Nodup ∧
    ∀ z : Cell, z ∈ findMatchGroup cols occ start target ↔
      (occGet occ z = some target ∧ Reaches cols occ target start z) := by
  unfold findMatchGroup
  refine bfs_correct cols occ target start hstart _ [start] {start} []
    (Nat.lt_succ_self _) ?_
  refine
    { q_nodup := List.nodup_singleton _
      out_nodup := List.nodup_nil
      disj := fun x _ => List.not_mem_nil x
      start_mem := Finset.mem_singleton_self _
      q_vis := ?_
      q_good := ?_
      out_vis := fun x hx => absurd hx (List.not_mem_nil x)
      out_good := fun x hx => absurd hx (List.not_mem_nil x)
      vis_cover := ?_
      out_closed := fun x hx => absurd hx (List.not_mem_nil x) }
  · intro x hx
    rw [List.mem_singleton.mp hx]
    exact Finset.mem_singleton_self _
  · intro x hx
    rw [List.mem_singleton.mp hx]
    exact ⟨hstart, Relation.ReflTransGen.refl⟩
  · intro x hx _
    exact Or.inl (by rw [Finset.mem_singleton.mp hx]; exact List.mem_singleton.mpr rfl)

theorem snap_occ (g : GridCfg) (mm : ℕ) (st : SceneState) (wx wy : ℚ)
    (color : Color) (rc : Cell)
    (hfind : findNearestEmptyCell g st.occ wx wy = some rc) :
    (snapProjectileToGrid g mm st wx wy color).occ
      = if mm ≤ (findMatchGroup g.cols (occSet st.occ rc color) rc color).length
        then (findMatchGroup g.cols (occSet st.occ rc color) rc color).foldl
          occDelete (occSet st.occ rc color)
        else occSet st.occ rc color := by
  unfold snapProjectileToGrid
  rw [hfind]
  dsimp only
  split_ifs <;> rfl

set_option maxHeartbeats 800000 in
/-- C2: for every occupancy state and every just-placed start bubble,
`findMatchGroup` returns the full same-colored connected component of the
start (duplicate-free), and at a snap the group is removed from the occupancy
store exactly when its size reaches `minMatchCount`: a group of exactly
`minMatchCount - 1` stays in place, a group of exactly `minMatchCount` is
removed in full. -/
theorem findMatchGroup_snap_spec (g : GridCfg) (mm : ℕ) (st : SceneState)
    (wx wy : ℚ) (color : Color) (rc : Cell)
    (hfind : findNearestEmptyCell g st.occ wx wy = some rc) :
    (∀ (occ2 : Occ) (start : Cell) (tgt : Color), occGet occ2 start = some tgt →
      (findMatchGroup g.cols occ2 start tgt).Nodup ∧
      ∀ z : Cell, z ∈ findMatchGroup g.cols occ2 start tgt ↔
        (occGet occ2 z = some tgt ∧ Reaches g.cols occ2 tgt start z)) ∧
    (∀ z : Cell,
      occGet (snapProjectileToGrid g mm st wx wy color).occ z
        = if mm ≤ (findMatchGroup g.cols (occSet st.occ rc color) rc color).length
              ∧ z ∈ findMatchGroup g.cols (occSet st.occ rc color) rc color
          then none
          else occGet (occSet st.occ rc color) z) ∧
    ((findMatchGroup g.cols (occSet st.occ rc color) rc color).length + 1 = mm →
      ∀ z ∈ findMatchGroup g.cols (occSet st.occ rc color) rc color,
        occGet (snapProjectileToGrid g mm st wx wy color).occ z = some color) ∧
    ((findMatchGroup g.cols (occSet st.occ rc color) rc color).length = mm →
      ∀ z ∈ findMatchGroup g.cols (occSet st.occ rc color) rc color,
        occGet (snapProjectileToGrid g mm st wx wy color).occ z = none) := by
  have hstart : occGet (occSet st.occ rc color) rc = some color := by
    rw [occGet_occSet]
    simp
  have hgrp := findMatchGroup_correct g.cols (occSet st.occ rc color) rc color hstart
  have hocc := snap_occ g mm st wx wy color rc hfind
  have hchar : ∀ z : Cell,
      occGet (snapProjectileToGrid g mm st wx wy color).occ z
        = if mm ≤ (findMatchGroup g.cols (occSet st.occ rc color) rc color).length
              ∧ z ∈ findMatchGroup g.cols (occSet st.occ rc color) rc color
          then none
          else occGet (occSet st.occ rc color) z := by
    intro z
    rw [hocc]
    by_cases hthr : mm ≤ (findMatchGroup g.cols (occSet st.occ rc color) rc color).length
    · rw [if_pos hthr, occGet_foldl_occDelete]
      by_cases hz : z ∈ findMatchGroup g.cols (occSet st.occ rc color) rc color
      · rw [if_pos hz, if_pos ⟨hthr, hz⟩]
      · rw [if_neg hz, if_neg (fun hand => hz hand.2)]
    · rw [if_neg hthr, if_neg (fun hand => hthr hand.1)]
  refine ⟨fun occ2 start tgt h => findMatchGroup_correct g.cols occ2 start tgt h,
    hchar, ?_, ?_⟩
  · intro hlen z hz
    rw [hchar z]
    have hthr : ¬ mm ≤ (findMatchGroup g.cols (occSet st.occ rc color) rc color).length := by
      omega
    rw [if_neg (fun hand => hthr hand.1)]
    exact ((hgrp.2 z).mp hz).1
  · intro hlen z hz
    rw [hchar z]
    rw [if_pos ⟨le_of_eq hlen.symm, hz⟩]

theorem findMatchGroup_snap_spec_witness :
    findNearestEmptyCell ⟨2, 0, 0, 1, 2, 2⟩
        [(((0 : ℤ), (0 : ℤ)), 5), (((1 : ℤ), (0 : ℤ)), 5)] 21 1
      = some ((0 : ℤ), (1 : ℤ)) ∧
    (findMatchGroup 2
        (occSet [(((0 : ℤ), (0 : ℤ)), 5), (((1 : ℤ), (0 : ℤ)), 5)]
          ((0 : ℤ), (1 : ℤ)) 5)
        ((0 : ℤ), (1 : ℤ)) 5).length = 3 ∧
    ((0 : ℤ), (0 : ℤ)) ∈ findMatchGroup 2
        (occSet [(((0 : ℤ), (0 : ℤ)), 5), (((1 : ℤ), (0 : ℤ)), 5)]
          ((0 : ℤ), (1 : ℤ)) 5)
        ((0 : ℤ), (1 : ℤ)) 5 ∧
    occGet (snapProjectileToGrid ⟨2, 0, 0, 1, 2, 2⟩ 3
        ⟨[(((0 : ℤ), (0 : ℤ)), 5), (((1 : ℤ), (0 : ℤ)), 5)], 1, 3, false, true⟩
        21 1 5).occ ((0 : ℤ), (0 : ℤ)) = none := by
  have hfind : findNearestEmptyCell ⟨2, 0, 0, 1, 2, 2⟩
      [(((0 : ℤ), (0 : ℤ)), 5), (((1 : ℤ), (0 : ℤ)), 5)] 21 1
      = some ((0 : ℤ), (1 : ℤ)) := by
    norm_num [-Prod.mk_zero_zero, -Prod.mk_one_one, findNearestEmptyCell, scanCells,
      rowsToCheck, List.range_succ, bestStep, dist2, cellToWorld,
      show Int.tmod 0 2 = 0 from by decide, show Int.tmod 1 2 = 1 from by decide,
      show Int.tmod 2 2 = 0 from by decide, show Int.tmod 3 2 = 1 from by decide,
      show Int.tmod 4 2 = 0 from by decide, show Int.tmod 5 2 = 1 from by decide,
      show Int.tmod 6 2 = 0 from by decide, show Int.tmod 7 2 = 1 from by decide,
      show occHas [(((0 : ℤ), (0 : ℤ)), 5), (((1 : ℤ), (0 : ℤ)), 5)]
        (((0 : ℤ), (0 : ℤ)) : Cell) = true from by decide,
      show occHas [(((0 : ℤ), (0 : ℤ)), 5), (((1 : ℤ), (0 : ℤ)), 5)]
        (((0 : ℤ), (1 : ℤ)) : Cell) = false from by decide,
      show occHas [(((0 : ℤ), (0 : ℤ)), 5), (((1 : ℤ), (0 : ℤ)), 5)]
        (((1 : ℤ), (0 : ℤ)) : Cell) = true from by decide,
      show occHas [(((0 : ℤ), (0 : ℤ)), 5), (((1 : ℤ), (0 : ℤ)), 5)]
        (((1 : ℤ), (1 : ℤ)) : Cell) = false from by decide,
      show occHas [(((0 : ℤ), (0 : ℤ)), 5), (((1 : ℤ), (0 : ℤ)), 5)]
        (((2 : ℤ), (0 : ℤ)) : Cell) = false from by decide,
      show occHas [(((0 : ℤ), (0 : ℤ)), 5), (((1 : ℤ), (0 : ℤ)), 5)]
        (((2 : ℤ), (1 : ℤ)) : Cell) = false from by decide,
      show occHas [(((0 : ℤ), (0 : ℤ)), 5), (((1 : ℤ), (0 : ℤ)), 5)]
        (((3 : ℤ), (0 : ℤ)) : Cell) = false from by decide,
      show occHas [(((0 : ℤ), (0 : ℤ)), 5), (((1 : ℤ), (0 : ℤ)), 5)]
        (((3 : ℤ), (1 : ℤ)) : Cell) = false from by decide,
      show occHas [(((0 : ℤ), (0 : ℤ)), 5), (((1 : ℤ), (0 : ℤ)), 5)]
        (((4 : ℤ), (0 : ℤ)) : Cell) = false from by decide,
      show occHas [(((0 : ℤ), (0 : ℤ)), 5), (((1 : ℤ), (0 : ℤ)), 5)]
        (((4 : ℤ), (1 : ℤ)) : Cell) = false from by decide,
      show occHas [(((0 : ℤ), (0 : ℤ)), 5), (((1 : ℤ), (0 : ℤ)), 5)]
        (((5 : ℤ), (0 : ℤ)) : Cell) = false from by decide,
      show occHas [(((0 : ℤ), (0 : ℤ)), 5), (((1 : ℤ), (0 : ℤ)), 5)]
        (((5 : ℤ), (1 : ℤ)) : Cell) = false from by decide,
      show occHas [(((0 : ℤ), (0 : ℤ)), 5), (((1 : ℤ), (0 : ℤ)), 5)]
        (((6 : ℤ), (0 : ℤ)) : Cell) = false from by decide,
      show occHas [(((0 : ℤ), (0 : ℤ)), 5), (((1 : ℤ), (0 : ℤ)), 5)]
        (((6 : ℤ), (1 : ℤ)) : Cell) = false from by decide,
      show occHas [(((0 : ℤ), (0 : ℤ)), 5), (((1 : ℤ), (0 : ℤ)), 5)]
        (((7 : ℤ), (0 : ℤ)) : Cell) = false from by decide,
      show occHas [(((0 : ℤ), (0 : ℤ)), 5), (((1 : ℤ), (0 : ℤ)), 5)]
        (((7 : ℤ), (1 : ℤ)) : Cell) = false from by decide]
  refine ⟨hfind, by decide, by decide, ?_⟩
  exact (findMatchGroup_snap_spec ⟨2, 0, 0, 1, 2, 2⟩ 3
    ⟨[(((0 : ℤ), (0 : ℤ)), 5), (((1 : ℤ), (0 : ℤ)), 5)], 1, 3, false, true⟩
    21 1 5 ((0 : ℤ), (1 : ℤ)) hfind).2.2.2 (by decide) ((0 : ℤ), (0 : ℤ)) (by decide)

end BubbleBlast
